import Mathlib

/-!
Shallow embedding of the Stripe-backed entitlement system: the Apps Script
backend (webhook ingestion with idempotency, paid-user and promotion caches,
`handleVerify` entitlement resolution) and the extension client
(`getPremiumStatus` with its 24-hour cache gate and retry fallback).

Dates are modelled at day granularity: a parsed promotion end date is a day
number, and the script's `setHours` calls become `startOfDayMs` /
`endOfDayMs` on that day number, with all comparisons in milliseconds as in
the source.  Machine state that the script reads and writes (the two sheets
and the script cache) is threaded explicitly through each handler.
-/

/-- One physical row of the Payments sheet: column 1 is the purchaser email,
column 2 the purchase timestamp cell, column 3 the Stripe event id. -/
structure PayRow where
  email : String
  ts : String
  eventId : String
deriving DecidableEq

/-- The end-date cell of a Promotions sheet row as the scan sees it: an empty
cell (falsy string), a cell that does not parse as a date, or a parsed date
identified by its calendar day number. -/
inductive DateCell where
  | empty
  | unparseable
  | date (day : Int)
deriving DecidableEq

/-- One body row of the Promotions sheet, columns 0..6 in stored order. -/
structure PromoRow where
  dateCell : DateCell
  ptype : String
  promoCodeId : String
  message : String
  buttonText : String
  salePriceText : String
  originalPrice : String
deriving DecidableEq

/-- The promotion object the resolver produces: either the no-promotion
marker or a full snapshot with its computed `daysLeft`. -/
inductive PromoData where
  | noPromo
  | promo (ptype promoCodeId message buttonText salePriceText originalPrice : String)
      (daysLeft : Int)
deriving DecidableEq

/-- Promotion type of a snapshot, `none` for the no-promotion marker. -/
def PromoData.ptypeOf : PromoData → Option String
  | .noPromo => none
  | .promo t _ _ _ _ _ _ => some t

/-- Reported `daysLeft` of a snapshot, `none` for the no-promotion marker. -/
def PromoData.daysLeftOf : PromoData → Option Int
  | .noPromo => none
  | .promo _ _ _ _ _ _ dl => some dl

/-- Milliseconds in one day, the divisor `1000 * 60 * 60 * 24`. -/
def dayMs : Int := 86400000

/-- Milliseconds of day `t` after `setHours(0, 0, 0, 0)`. -/
def startOfDayMs (t : Int) : Int := t * dayMs

/-- Milliseconds of day `d` after `setHours(23, 59, 59, 999)`. -/
def endOfDayMs (d : Int) : Int := d * dayMs + (dayMs - 1)

/-- Integer form of `Math.ceil(a / b)` for positive `b`. -/
def jsCeilDiv (a b : Int) : Int := -((-a) / b)

/-- Backend state: the Payments sheet rows (header row included), the
Promotions sheet (`none` when the tab is missing, so reading it throws), and
the two script-cache entries, `paid_users_list` and `active_promotion_data`. -/
structure ServerState where
  payments : List PayRow
  promotions : Option (List PromoRow)
  paidCache : Option (List String)
  promoCache : Option PromoData
deriving DecidableEq

/-- Activity test of one promotion row: its end date parsed and, pushed to
end of day, on or after today's start of day; rows with a missing or
unparseable end date are never active. -/
def rowIsActive (r : PromoRow) (today : Int) : Bool :=
  match r.dateCell with
  | .date d => decide (startOfDayMs today ≤ endOfDayMs d)
  | _ => false

/-- Snapshot built from an active row with parsed day `d`: the six text
columns plus `daysLeft` computed as in the source. -/
def mkPromoInfo (r : PromoRow) (d today : Int) : PromoData :=
  .promo r.ptype r.promoCodeId r.message r.buttonText r.salePriceText r.originalPrice
    (jsCeilDiv (endOfDayMs d - startOfDayMs today) dayMs)

/-- Day number stored in a row's date cell, defaulting to 0 when absent. -/
def rowDay (r : PromoRow) : Int :=
  match r.dateCell with
  | .date d => d
  | _ => 0

/-- Modelled from the spec: the snapshot the specification assigns to a
selected row, for comparison with the source's scan. -/
def specSnapshot (r : PromoRow) (today : Int) : PromoData :=
  mkPromoInfo r (rowDay r) today

/-- The source's scan over Promotions body rows: in stored order, skip rows
whose end-date cell is empty or unparseable, and return the snapshot of the
first row whose end of day is on or after today's start of day. -/
def scanPromoRows (rows : List PromoRow) (today : Int) : Option PromoData :=
  match rows with
  | [] => none
  | r :: rest =>
    match r.dateCell with
    | .empty => scanPromoRows rest today
    | .unparseable => scanPromoRows rest today
    | .date d =>
      if startOfDayMs today ≤ endOfDayMs d then
        some (mkPromoInfo r d today)
      else
        scanPromoRows rest today

/-- Body of `getActivePromotion` inside its `try`: cache fast path, then the
sheet scan; reading a missing Promotions tab throws.  On the slow path the
result, promotion or not, is written to the cache. -/
def getActivePromotionBody (st : ServerState) (today : Int) :
    Except String (PromoData × ServerState) :=
  match st.promoCache with
  | some cached => .ok (cached, st)
  | none =>
    match st.promotions with
    | none => .error "TypeError: cannot read the Promotions sheet"
    | some data =>
      match scanPromoRows (data.drop 1) today with
      | some info => .ok (info, { st with promoCache := some info })
      | none => .ok (.noPromo, { st with promoCache := some .noPromo })

/-- Full `getActivePromotion`: the `catch` turns any internal failure into a
safe no-promotion answer with the state left untouched. -/
def getActivePromotion (st : ServerState) (today : Int) : PromoData × ServerState :=
  match getActivePromotionBody st today with
  | .ok r => r
  | .error _ => (.noPromo, st)

/-- The paid-user list: cache fast path, else read column 1 of rows 2..last
of the Payments sheet and cache it; an effectively empty sheet yields `[]`
without a cache write. -/
def getPaidUsersFromCacheOrSheet (st : ServerState) : List String × ServerState :=
  match st.paidCache with
  | some l => (l, st)
  | none =>
    if st.payments.length < 2 then ([], st)
    else
      let emailList := (st.payments.drop 1).map PayRow.email
      (emailList, { st with paidCache := some emailList })

/-- Response shape `{status, promoData}` returned to the interactive client. -/
structure StatusResp where
  status : String
  promoData : Option PromoData
deriving DecidableEq

/-- The `verify` handler: paid-list membership first, then the active
promotion decides between free-promo access, a discounted offer, and the
plain non-premium answer. -/
def handleVerify (userEmail : String) (st : ServerState) (today : Int) :
    StatusResp × ServerState :=
  let res := getPaidUsersFromCacheOrSheet st
  if userEmail ∈ res.1 then
    (⟨"paid", none⟩, res.2)
  else
    let pres := getActivePromotion res.2 today
    match pres.1 with
    | .promo t pc m bt sp op dl =>
      if t = "FREE" then
        (⟨"free_promo", some (.promo t pc m bt sp op dl)⟩, pres.2)
      else
        (⟨"not_premium", some (.promo t pc m bt sp op dl)⟩, pres.2)
    | .noPromo => (⟨"not_premium", none⟩, pres.2)

/-- Webhook acknowledgment: every branch of the ingestor returns this
success response. -/
inductive Ack where
  | success
deriving DecidableEq

/-- An incoming webhook request body: unparseable JSON, or a parsed event
with its id, type, and optional `client_reference_id`. -/
inductive WebhookBody where
  | malformed
  | event (eventId : String) (etype : String) (clientRef : Option String)
deriving DecidableEq

/-- JavaScript truthiness of an optional string: absent and empty are falsy. -/
def jsTruthyStr : Option String → Bool
  | none => false
  | some s => s ≠ ""

/-- Idempotency check: exact-match search for the event id over column 3 of
the Payments sheet rows. -/
def isEventProcessed (eventId : String) (payments : List PayRow) : Bool :=
  payments.any (fun r => r.eventId == eventId)

/-- The webhook ingestor: parse, idempotency check, then for a completed
checkout with a truthy reconciliation email append one row and drop the
paid-user cache entry; every path acknowledges success. -/
def handleStripeWebhook (body : WebhookBody) (st : ServerState) (nowTs : String) :
    Ack × ServerState :=
  match body with
  | .malformed => (.success, st)
  | .event eventId etype clientRef =>
    if isEventProcessed eventId st.payments then
      (.success, st)
    else if etype = "checkout.session.completed" then
      match clientRef with
      | some userEmail =>
        if userEmail ≠ "" then
          (.success,
            { st with
              payments := st.payments ++ [⟨userEmail, nowTs, eventId⟩],
              paidCache := none })
        else (.success, st)
      | none => (.success, st)
    else (.success, st)

/-- State after delivering the same webhook body `n` times in a row. -/
def deliverTimes (body : WebhookBody) (nowTs : String) (st : ServerState) :
    Nat → ServerState
  | 0 => st
  | n + 1 => (handleStripeWebhook body (deliverTimes body nowTs st n) nowTs).2

/-- Number of Payments rows carrying a given event id. -/
def countEvt (payments : List PayRow) (eventId : String) : Nat :=
  payments.countP (fun r => r.eventId == eventId)

/-- Client-side cache entry `{status, timestamp, email}`. -/
structure CacheEntry where
  status : String
  timestamp : Int
  email : String
deriving DecidableEq

/-- Client-side storage: the pending-payment marker and the premium cache. -/
structure ClientState where
  paymentState : Option String
  premiumCache : Option CacheEntry
deriving DecidableEq

/-- The 24-hour client cache lifetime in milliseconds. -/
def premiumCacheDuration : Int := 86400000

/-- Retry loop core: try attempts `attempt`, `attempt + 1`, ... while fuel
remains, returning the first success, else the last error; out of fuel with
no attempt made yields `none` (the undefined return of a zero-retry loop). -/
def retrySeq {E A : Type} (fetch : Nat → Except E A) : Nat → Nat → Option (Except E A)
  | _, 0 => none
  | attempt, fuel + 1 =>
    match fetch attempt with
    | .ok a => some (.ok a)
    | .error e =>
      match fuel with
      | 0 => some (.error e)
      | _ + 1 => retrySeq fetch (attempt + 1) fuel

/-- Bounded exponential-backoff retry: up to `maxRetries` attempts of the
fetch, indexed by attempt number. -/
def retryWithBackoff {E A : Type} (fetch : Nat → Except E A) (maxRetries : Nat) :
    Option (Except E A) :=
  retrySeq fetch 0 maxRetries

/-- The client's compound cache condition: no pending payment, a cache entry
present, its email matching the signed-in user, its status paid, and its age
under 24 hours. -/
def cacheTrusted (userEmail : String) (st : ClientState) (now : Int) : Bool :=
  !(st.paymentState == some "pending") &&
    (match st.premiumCache with
     | none => false
     | some c =>
       c.email == userEmail && c.status == "paid" &&
         decide (now - c.timestamp < premiumCacheDuration))

/-- Fallback answer on remote failure: the raw cached entry if one exists,
else the default non-premium answer. -/
def fallbackResp (st : ClientState) : StatusResp :=
  match st.premiumCache with
  | some c => ⟨c.status, none⟩
  | none => ⟨"not_premium", none⟩

/-- The client's status check: trust the cache under `cacheTrusted`, else
call the remote verifier through the retry loop, persisting a paid answer
and completing a pending payment on success, and falling back to the cached
entry or the default on failure.  The third component records whether a
remote call was made. -/
def getPremiumStatus (userEmail : String) (st : ClientState) (now : Int)
    (fetch : Nat → Except String StatusResp) : StatusResp × ClientState × Bool :=
  if cacheTrusted userEmail st now then
    (⟨"paid", none⟩, st, false)
  else
    match retryWithBackoff fetch 3 with
    | some (.ok data) =>
      let st1 :=
        if data.status = "paid" then
          { st with premiumCache := some ⟨"paid", now, userEmail⟩ }
        else st
      let st2 :=
        if st.paymentState == some "pending" then
          { st1 with paymentState := some "completed" }
        else st1
      (data, st2, true)
    | some (.error _) => (fallbackResp st, st, true)
    | none => (fallbackResp st, st, true)

/-! Theorems -/

/-- C6 : a webhook request whose body is not parseable JSON is acknowledged
with success and leaves the whole server state, ledger and caches alike,
unchanged. -/
theorem webhook_malformed_ack_no_change (st : ServerState) (nowTs : String) :
    handleStripeWebhook .malformed st nowTs = (.success, st) := rfl

/-- C2 : every email present in the paid-user set that the resolver loads
from cache or ledger is answered with status paid and no promotion data,
whatever the promotion table and caches hold. -/
theorem verify_paid_returns_paid (userEmail : String) (st : ServerState) (today : Int)
    (h : userEmail ∈ (getPaidUsersFromCacheOrSheet st).1) :
    (handleVerify userEmail st today).1 = ⟨"paid", none⟩ := by
  unfold handleVerify
  simp [h]

theorem verify_paid_returns_paid_witness :
    "a@x.com" ∈
      (getPaidUsersFromCacheOrSheet
        ⟨[⟨"Email", "Date", "Event ID"⟩, ⟨"a@x.com", "t1", "evt_1"⟩],
          none, none, none⟩).1 ∧
    (handleVerify "a@x.com"
        ⟨[⟨"Email", "Date", "Event ID"⟩, ⟨"a@x.com", "t1", "evt_1"⟩],
          none, none, none⟩ 0).1 = ⟨"paid", none⟩ :=
  ⟨by decide,
    verify_paid_returns_paid "a@x.com"
      ⟨[⟨"Email", "Date", "Event ID"⟩, ⟨"a@x.com", "t1", "evt_1"⟩],
        none, none, none⟩ 0 (by decide)⟩

/-- C10 : when the body of getActivePromotion fails internally it returns the
safe no-promotion answer with the state unchanged, so nothing is written to
the cache; and a state with an empty promotion cache and a missing
Promotions tab does make the body fail. -/
theorem getActivePromotion_failure_safe (st : ServerState) (today : Int) :
    (∀ e, getActivePromotionBody st today = .error e →
        getActivePromotion st today = (.noPromo, st)) ∧
    (st.promoCache = none → st.promotions = none →
        ∃ e, getActivePromotionBody st today = .error e) := by
  constructor
  · intro e he
    unfold getActivePromotion
    rw [he]
  · intro h1 h2
    refine ⟨"TypeError: cannot read the Promotions sheet", ?_⟩
    unfold getActivePromotionBody
    rw [h1, h2]

theorem getActivePromotion_failure_safe_witness :
    getActivePromotion ⟨[], none, none, none⟩ 0 = (.noPromo, ⟨[], none, none, none⟩) := by
  have h := getActivePromotion_failure_safe ⟨[], none, none, none⟩ 0
  obtain ⟨e, he⟩ := h.2 rfl rfl
  exact h.1 e he

/-- C3 : an email absent from the loaded paid-user set is answered from the
active promotion: free-promo access with the snapshot for a FREE promotion,
non-premium with the snapshot for a DISCOUNT promotion, non-premium with no
data when no promotion is active; the answer is always one of the promo or
non-premium statuses, never an error. -/
theorem verify_absent_reflects_promo (userEmail : String) (st : ServerState) (today : Int)
    (habs : userEmail ∉ (getPaidUsersFromCacheOrSheet st).1) :
    ((getActivePromotion (getPaidUsersFromCacheOrSheet st).2 today).1.ptypeOf = some "FREE" →
      (handleVerify userEmail st today).1 =
        ⟨"free_promo", some (getActivePromotion (getPaidUsersFromCacheOrSheet st).2 today).1⟩) ∧
    ((getActivePromotion (getPaidUsersFromCacheOrSheet st).2 today).1.ptypeOf = some "DISCOUNT" →
      (handleVerify userEmail st today).1 =
        ⟨"not_premium", some (getActivePromotion (getPaidUsersFromCacheOrSheet st).2 today).1⟩) ∧
    ((getActivePromotion (getPaidUsersFromCacheOrSheet st).2 today).1 = .noPromo →
      (handleVerify userEmail st today).1 = ⟨"not_premium", none⟩) ∧
    ((handleVerify userEmail st today).1.status = "free_promo" ∨
      (handleVerify userEmail st today).1.status = "not_premium") := by
  unfold handleVerify
  simp only [habs, if_false, ite_false]
  cases hpd : (getActivePromotion (getPaidUsersFromCacheOrSheet st).2 today).1 with
  | noPromo => simp [PromoData.ptypeOf]
  | promo t pc m bt sp op dl =>
    by_cases ht : t = "FREE"
    · subst ht
      simp [PromoData.ptypeOf]
    · simp [PromoData.ptypeOf, ht]

/-- Concrete backend state for witnesses: empty ledger (header only), one
DISCOUNT promotion row ending on day 5, both caches empty. -/
def wStDiscount : ServerState :=
  ⟨[⟨"Email", "Date", "Event ID"⟩],
    some [⟨DateCell.empty, "End", "Code", "Msg", "Btn", "Sale", "Orig"⟩,
          ⟨DateCell.date 5, "DISCOUNT", "P1", "msg", "btn", "sale", "orig"⟩],
    none, none⟩

theorem verify_absent_reflects_promo_witness :
    (handleVerify "a@x.com" wStDiscount 0).1 =
      ⟨"not_premium",
        some (getActivePromotion (getPaidUsersFromCacheOrSheet wStDiscount).2 0).1⟩ :=
  (verify_absent_reflects_promo "a@x.com" wStDiscount 0 (by decide)).2.1 (by decide)

/-- C5 : the promotion scan equals a first-match search in stored order over
the activity predicate, so rows with empty or unparseable end dates are
skipped, and of two overlapping active windows the earlier row is chosen;
and the activity predicate rejects every row whose end date is missing or
unparseable. -/
theorem promo_scan_first_match :
    (∀ (rows : List PromoRow) (today : Int),
        scanPromoRows rows today =
          (rows.find? (fun r => rowIsActive r today)).map (fun r => specSnapshot r today)) ∧
    (∀ pt pc m bt sp op today,
        rowIsActive ⟨.empty, pt, pc, m, bt, sp, op⟩ today = false) ∧
    (∀ pt pc m bt sp op today,
        rowIsActive ⟨.unparseable, pt, pc, m, bt, sp, op⟩ today = false) := by
  refine ⟨?_, fun pt pc m bt sp op today => rfl, fun pt pc m bt sp op today => rfl⟩
  intro rows today
  induction rows with
  | nil => rfl
  | cons r rest ih =>
    obtain ⟨dc, pt, pc, m, bt, sp, op⟩ := r
    cases dc with
    | empty => simpa [scanPromoRows, List.find?, rowIsActive] using ih
    | unparseable => simpa [scanPromoRows, List.find?, rowIsActive] using ih
    | date d =>
      by_cases h : startOfDayMs today ≤ endOfDayMs d
      · simp [scanPromoRows, List.find?, rowIsActive, h, specSnapshot, rowDay]
      · simpa [scanPromoRows, List.find?, rowIsActive, h] using ih

/-- A successful scan selects some listed row with a parsed, active end date
and returns exactly its snapshot. -/
theorem scanPromoRows_eq_some (rows : List PromoRow) (today : Int) (pd : PromoData)
    (h : scanPromoRows rows today = some pd) :
    ∃ r ∈ rows, ∃ d, r.dateCell = .date d ∧ startOfDayMs today ≤ endOfDayMs d ∧
      pd = mkPromoInfo r d today := by
  induction rows with
  | nil => simp [scanPromoRows] at h
  | cons r rest ih =>
    obtain ⟨dc, pt, pc, m, bt, sp, op⟩ := r
    cases dc with
    | empty =>
      obtain ⟨r', hr', hrest⟩ := ih (by simpa [scanPromoRows] using h)
      exact ⟨r', List.mem_cons_of_mem _ hr', hrest⟩
    | unparseable =>
      obtain ⟨r', hr', hrest⟩ := ih (by simpa [scanPromoRows] using h)
      exact ⟨r', List.mem_cons_of_mem _ hr', hrest⟩
    | date d =>
      by_cases hd : startOfDayMs today ≤ endOfDayMs d
      · refine ⟨⟨.date d, pt, pc, m, bt, sp, op⟩, List.mem_cons_self _ _, d, rfl, hd, ?_⟩
        simp [scanPromoRows, hd] at h
        exact h.symm
      · obtain ⟨r', hr', hrest⟩ := ih (by simpa [scanPromoRows, hd] using h)
        exact ⟨r', List.mem_cons_of_mem _ hr', hrest⟩

/-- C4 : a promotion returned on the uncached slow path comes from an active
row with parsed day `d`; its reported daysLeft is the ceiling of the
millisecond gap from today's start of day to the row's end of day divided by
one day, that ceiling equals `d - today + 1`, and a row ending five days
from today reports six days left. -/
theorem promo_daysLeft_ceil (st : ServerState) (today : Int) (data : List PromoRow)
    (pd : PromoData) (hcache : st.promoCache = none) (hdata : st.promotions = some data)
    (hscan : scanPromoRows (data.drop 1) today = some pd) :
    (getActivePromotion st today).1 = pd ∧
    ∃ r ∈ data.drop 1, ∃ d, r.dateCell = .date d ∧ startOfDayMs today ≤ endOfDayMs d ∧
      pd.daysLeftOf = some (jsCeilDiv (endOfDayMs d - startOfDayMs today) dayMs) ∧
      jsCeilDiv (endOfDayMs d - startOfDayMs today) dayMs = d - today + 1 ∧
      (d = today + 5 → pd.daysLeftOf = some 6) := by
  have harith : ∀ d : Int, startOfDayMs today ≤ endOfDayMs d →
      jsCeilDiv (endOfDayMs d - startOfDayMs today) dayMs = d - today + 1 := by
    intro d hd
    simp only [jsCeilDiv, endOfDayMs, startOfDayMs, dayMs] at hd ⊢
    omega
  constructor
  · unfold getActivePromotion getActivePromotionBody
    rw [hcache, hdata]
    rw [List.drop_one] at hscan
    simp [hscan]
  · obtain ⟨r, hr, d, hcell, hd, hpd⟩ := scanPromoRows_eq_some _ _ _ hscan
    refine ⟨r, hr, d, hcell, hd, ?_, harith d hd, ?_⟩
    · rw [hpd]; rfl
    · intro hd5
      rw [hpd]
      show some (jsCeilDiv (endOfDayMs d - startOfDayMs today) dayMs) = some 6
      rw [harith d hd, hd5]
      ring_nf

theorem promo_daysLeft_ceil_witness :
    (getActivePromotion
        ⟨[⟨"Email", "Date", "Event ID"⟩],
          some [⟨DateCell.empty, "End", "Code", "Msg", "Btn", "Sale", "Orig"⟩,
                ⟨DateCell.date 5, "DISCOUNT", "P1", "msg", "btn", "sale", "orig"⟩],
          none, none⟩ 0).1 =
      PromoData.promo "DISCOUNT" "P1" "msg" "btn" "sale" "orig" 6 :=
  (promo_daysLeft_ceil
    ⟨[⟨"Email", "Date", "Event ID"⟩],
      some [⟨DateCell.empty, "End", "Code", "Msg", "Btn", "Sale", "Orig"⟩,
            ⟨DateCell.date 5, "DISCOUNT", "P1", "msg", "btn", "sale", "orig"⟩],
      none, none⟩ 0
    [⟨DateCell.empty, "End", "Code", "Msg", "Btn", "Sale", "Orig"⟩,
     ⟨DateCell.date 5, "DISCOUNT", "P1", "msg", "btn", "sale", "orig"⟩]
    (PromoData.promo "DISCOUNT" "P1" "msg" "btn" "sale" "orig" 6)
    rfl rfl (by decide)).1

/-- The idempotency search succeeds exactly when the ledger already carries
at least one row with the event id. -/
theorem isEventProcessed_true_iff (eventId : String) (payments : List PayRow) :
    isEventProcessed eventId payments = true ↔ 0 < countEvt payments eventId := by
  simp [isEventProcessed, countEvt, List.any_eq_true, List.countP_pos_iff]

/-- A delivery whose event id is already in the ledger is acknowledged and
changes nothing. -/
theorem webhook_processed_noop (eventId etype : String) (clientRef : Option String)
    (st : ServerState) (nowTs : String) (h : 0 < countEvt st.payments eventId) :
    handleStripeWebhook (.event eventId etype clientRef) st nowTs = (.success, st) := by
  have hp : isEventProcessed eventId st.payments = true :=
    (isEventProcessed_true_iff _ _).2 h
  simp [handleStripeWebhook, hp]

/-- A fresh completed-checkout delivery with a truthy reconciliation email
appends exactly its one row and drops the paid-user cache entry. -/
theorem webhook_fresh_append (eventId clientEmail : String) (st : ServerState)
    (nowTs : String) (hfresh : isEventProcessed eventId st.payments = false)
    (hem : clientEmail ≠ "") :
    handleStripeWebhook (.event eventId "checkout.session.completed" (some clientEmail))
        st nowTs =
      (.success,
        { st with payments := st.payments ++ [⟨clientEmail, nowTs, eventId⟩],
                  paidCache := none }) := by
  simp [handleStripeWebhook, hfresh, hem]

/-- C1 : delivering the same completed-checkout notification N ≥ 1 times to
a ledger that does not yet carry its event id leaves exactly one row with
that id; the state after N deliveries equals the state after the first, and
every delivery from the second on is acknowledged with the state, ledger and
caches included, untouched. -/
theorem webhook_replay_exactly_once (eventId clientEmail nowTs : String)
    (st : ServerState) (N : Nat) (hN : 1 ≤ N)
    (h0 : countEvt st.payments eventId = 0) (hem : clientEmail ≠ "") :
    countEvt (deliverTimes (.event eventId "checkout.session.completed" (some clientEmail))
        nowTs st N).payments eventId = 1 ∧
    deliverTimes (.event eventId "checkout.session.completed" (some clientEmail))
        nowTs st N =
      deliverTimes (.event eventId "checkout.session.completed" (some clientEmail))
        nowTs st 1 ∧
    ∀ n, 1 ≤ n →
      handleStripeWebhook (.event eventId "checkout.session.completed" (some clientEmail))
          (deliverTimes (.event eventId "checkout.session.completed" (some clientEmail))
            nowTs st n) nowTs =
        (.success,
          deliverTimes (.event eventId "checkout.session.completed" (some clientEmail))
            nowTs st n) := by
  have hfresh : isEventProcessed eventId st.payments = false := by
    rw [← Bool.not_eq_true, isEventProcessed_true_iff]
    omega
  have hstep1 : deliverTimes (.event eventId "checkout.session.completed" (some clientEmail))
      nowTs st 1 =
      { st with payments := st.payments ++ [⟨clientEmail, nowTs, eventId⟩],
                paidCache := none } := by
    have h1 : deliverTimes
        (.event eventId "checkout.session.completed" (some clientEmail)) nowTs st 1 =
        (handleStripeWebhook
          (.event eventId "checkout.session.completed" (some clientEmail)) st nowTs).2 := rfl
    rw [h1, webhook_fresh_append eventId clientEmail st nowTs hfresh hem]
  have hcount1 : countEvt (deliverTimes
      (.event eventId "checkout.session.completed" (some clientEmail))
      nowTs st 1).payments eventId = 1 := by
    rw [hstep1]
    simp only [countEvt, List.countP_append] at h0 ⊢
    simp [h0, List.countP_cons]
  have hall : ∀ m, deliverTimes
      (.event eventId "checkout.session.completed" (some clientEmail)) nowTs st (m + 1) =
      deliverTimes (.event eventId "checkout.session.completed" (some clientEmail))
        nowTs st 1 := by
    intro m
    induction m with
    | zero => rfl
    | succ k ih =>
      have h2 : deliverTimes
          (.event eventId "checkout.session.completed" (some clientEmail)) nowTs st (k + 2) =
          (handleStripeWebhook
            (.event eventId "checkout.session.completed" (some clientEmail))
            (deliverTimes
              (.event eventId "checkout.session.completed" (some clientEmail))
              nowTs st (k + 1)) nowTs).2 := rfl
      rw [h2, ih, webhook_processed_noop _ _ _ _ _ (by omega)]
  obtain ⟨m, rfl⟩ : ∃ m, N = m + 1 := ⟨N - 1, by omega⟩
  refine ⟨by rw [hall m]; exact hcount1, hall m, ?_⟩
  intro n hn
  obtain ⟨k, rfl⟩ : ∃ k, n = k + 1 := ⟨n - 1, by omega⟩
  rw [hall k]
  exact webhook_processed_noop _ _ _ _ _ (by omega)

theorem webhook_replay_exactly_once_witness :
    countEvt (deliverTimes
        (.event "evt_1" "checkout.session.completed" (some "b@x.com")) "t2"
        ⟨[⟨"Email", "Date", "Event ID"⟩], none, some ["a@x.com"], none⟩ 3).payments
        "evt_1" = 1 ∧
    deliverTimes (.event "evt_1" "checkout.session.completed" (some "b@x.com")) "t2"
        ⟨[⟨"Email", "Date", "Event ID"⟩], none, some ["a@x.com"], none⟩ 3 =
      deliverTimes (.event "evt_1" "checkout.session.completed" (some "b@x.com")) "t2"
        ⟨[⟨"Email", "Date", "Event ID"⟩], none, some ["a@x.com"], none⟩ 1 := by
  have h := webhook_replay_exactly_once "evt_1" "b@x.com" "t2"
    ⟨[⟨"Email", "Date", "Event ID"⟩], none, some ["a@x.com"], none⟩ 3
    (by omega) (by decide) (by decide)
  exact ⟨h.1, h.2.1⟩

/-- C8 : right after the ingestor appends the row of a fresh completed
checkout carrying a reconciliation email, the paid-user cache entry is gone,
so the next paid-user read goes back to the ledger and already lists the new
email, whatever the previous cache entry held. -/
theorem webhook_append_invalidates (st : ServerState) (eventId clientEmail nowTs : String)
    (hfresh : isEventProcessed eventId st.payments = false)
    (hem : clientEmail ≠ "") (hne : st.payments ≠ []) :
    (handleStripeWebhook (.event eventId "checkout.session.completed" (some clientEmail))
        st nowTs).2.paidCache = none ∧
    (handleStripeWebhook (.event eventId "checkout.session.completed" (some clientEmail))
        st nowTs).2.payments = st.payments ++ [⟨clientEmail, nowTs, eventId⟩] ∧
    (getPaidUsersFromCacheOrSheet
        (handleStripeWebhook (.event eventId "checkout.session.completed" (some clientEmail))
          st nowTs).2).1 =
      (st.payments.drop 1).map PayRow.email ++ [clientEmail] ∧
    clientEmail ∈ (getPaidUsersFromCacheOrSheet
        (handleStripeWebhook (.event eventId "checkout.session.completed" (some clientEmail))
          st nowTs).2).1 := by
  rw [webhook_fresh_append eventId clientEmail st nowTs hfresh hem]
  have hlen : 1 ≤ st.payments.length := List.length_pos.2 hne
  have hlist : (getPaidUsersFromCacheOrSheet
      { st with payments := st.payments ++ [⟨clientEmail, nowTs, eventId⟩],
                paidCache := none }).1 =
      (st.payments.drop 1).map PayRow.email ++ [clientEmail] := by
    unfold getPaidUsersFromCacheOrSheet
    have hnotlt : ¬ (st.payments ++ [(⟨clientEmail, nowTs, eventId⟩ : PayRow)]).length < 2 := by
      simp only [List.length_append, List.length_cons, List.length_nil]
      omega
    simp only [hnotlt, if_false, ite_false]
    rw [List.drop_append_of_le_length hlen]
    simp
  exact ⟨rfl, rfl, hlist, by rw [hlist]; simp⟩

theorem webhook_append_invalidates_witness :
    (handleStripeWebhook (.event "evt_9" "checkout.session.completed" (some "b@x.com"))
        ⟨[⟨"Email", "Date", "Event ID"⟩, ⟨"a@x.com", "t1", "evt_1"⟩],
          none, some ["a@x.com"], none⟩ "t2").2.paidCache = none ∧
    "b@x.com" ∈ (getPaidUsersFromCacheOrSheet
        (handleStripeWebhook (.event "evt_9" "checkout.session.completed" (some "b@x.com"))
          ⟨[⟨"Email", "Date", "Event ID"⟩, ⟨"a@x.com", "t1", "evt_1"⟩],
            none, some ["a@x.com"], none⟩ "t2").2).1 := by
  have h := webhook_append_invalidates
    ⟨[⟨"Email", "Date", "Event ID"⟩, ⟨"a@x.com", "t1", "evt_1"⟩], none, some ["a@x.com"], none⟩
    "evt_9" "b@x.com" "t2" (by decide) (by decide) (by decide)
  exact ⟨h.1, h.2.2.2⟩

/-- The remote-call marker of getPremiumStatus is exactly the negation of
the compound cache condition. -/
theorem getPremiumStatus_remote_iff (userEmail : String) (st : ClientState) (now : Int)
    (fetch : Nat → Except String StatusResp) :
    (getPremiumStatus userEmail st now fetch).2.2 = !(cacheTrusted userEmail st now) := by
  unfold getPremiumStatus
  cases h : cacheTrusted userEmail st now with
  | true => simp
  | false =>
    simp only [Bool.false_eq_true, if_false, Bool.not_false, ite_false]
    cases hR : retryWithBackoff fetch 3 with
    | none => rfl
    | some r =>
      cases r with
      | error e => rfl
      | ok d => rfl

/-- C7 : the client cache short-circuits the remote call exactly when no
payment is pending, a cache entry exists for the signed-in user's email with
status paid, and its age is strictly below 24 hours; in that case the cached
paid answer is returned with the client state untouched, and whenever any
condition fails a remote call is made. -/
theorem client_cache_shortcircuit (userEmail : String) (st : ClientState) (now : Int)
    (fetch : Nat → Except String StatusResp) :
    ((getPremiumStatus userEmail st now fetch).2.2 = false ↔
      (st.paymentState ≠ some "pending" ∧
        ∃ c, st.premiumCache = some c ∧ c.email = userEmail ∧ c.status = "paid" ∧
          now - c.timestamp < premiumCacheDuration)) ∧
    ((getPremiumStatus userEmail st now fetch).2.2 = false →
      getPremiumStatus userEmail st now fetch = (⟨"paid", none⟩, st, false)) := by
  have hiff : cacheTrusted userEmail st now = true ↔
      (st.paymentState ≠ some "pending" ∧
        ∃ c, st.premiumCache = some c ∧ c.email = userEmail ∧ c.status = "paid" ∧
          now - c.timestamp < premiumCacheDuration) := by
    cases hc : st.premiumCache with
    | none => simp [cacheTrusted, hc]
    | some c => simp [cacheTrusted, hc, and_assoc]
  have hrem := getPremiumStatus_remote_iff userEmail st now fetch
  constructor
  · rw [hrem]
    cases hct : cacheTrusted userEmail st now with
    | true => simpa using hiff.1 hct
    | false =>
      simp only [Bool.not_false, Bool.true_eq_false, false_iff]
      intro hcontra
      rw [hiff.2 hcontra] at hct
      simp at hct
  · intro hfalse
    rw [hrem] at hfalse
    have hct : cacheTrusted userEmail st now = true := by
      cases h : cacheTrusted userEmail st now with
      | true => rfl
      | false => rw [h] at hfalse; exact absurd hfalse (by simp)
    unfold getPremiumStatus
    rw [hct]
    simp

theorem client_cache_shortcircuit_witness :
    ((getPremiumStatus "a@x.com" ⟨none, some ⟨"paid", 0, "a@x.com"⟩⟩ 1000
        (fun _ => Except.error "down")).2.2 = false) ∧
    getPremiumStatus "a@x.com" ⟨none, some ⟨"paid", 0, "a@x.com"⟩⟩ 1000
        (fun _ => Except.error "down") =
      (⟨"paid", none⟩, ⟨none, some ⟨"paid", 0, "a@x.com"⟩⟩, false) := by
  have h := client_cache_shortcircuit "a@x.com" ⟨none, some ⟨"paid", 0, "a@x.com"⟩⟩ 1000
    (fun _ => Except.error "down")
  have hfalse : (getPremiumStatus "a@x.com" ⟨none, some ⟨"paid", 0, "a@x.com"⟩⟩ 1000
      (fun _ => Except.error "down")).2.2 = false :=
    h.1.2 ⟨by simp, ⟨"paid", 0, "a@x.com"⟩, rfl, rfl, rfl, by decide⟩
  exact ⟨hfalse, h.2 hfalse⟩

/-- C9 : when every remote attempt fails, the bounded retry loop returns the
last error, and getPremiumStatus answers with the last cached decision if one
exists and the default non-premium answer otherwise, leaving the client
state untouched and propagating no failure. -/
theorem client_remote_failure_fallback (userEmail : String) (st : ClientState) (now : Int)
    (fetch : Nat → Except String StatusResp) (msg : String)
    (hfail : ∀ n, fetch n = .error msg)
    (hct : cacheTrusted userEmail st now = false) :
    retryWithBackoff fetch 3 = some (.error msg) ∧
    getPremiumStatus userEmail st now fetch = (fallbackResp st, st, true) ∧
    (st.premiumCache = none → fallbackResp st = ⟨"not_premium", none⟩) ∧
    (∀ c, st.premiumCache = some c → fallbackResp st = ⟨c.status, none⟩) := by
  have hretry : retryWithBackoff fetch 3 = some (.error msg) := by
    have e0 := hfail 0
    have e1 := hfail 1
    have e2 := hfail 2
    simp [retryWithBackoff, retrySeq, e0, e1, e2]
  refine ⟨hretry, ?_, ?_, ?_⟩
  · unfold getPremiumStatus
    rw [hct, hretry]
    simp
  · intro h
    simp [fallbackResp, h]
  · intro c h
    simp [fallbackResp, h]

theorem client_remote_failure_fallback_witness :
    retryWithBackoff (fun _ => (Except.error "down" : Except String StatusResp)) 3 =
      some (.error "down") ∧
    getPremiumStatus "a@x.com" ⟨none, none⟩ 0 (fun _ => Except.error "down") =
      (⟨"not_premium", none⟩, ⟨none, none⟩, true) := by
  have h := client_remote_failure_fallback "a@x.com" ⟨none, none⟩ 0
    (fun _ => Except.error "down") "down" (fun n => rfl) (by decide)
  refine ⟨h.1, ?_⟩
  rw [h.2.1, h.2.2.1 rfl]
